import Mathlib

/-!
Verification of the OAuth 1.0a client library (oauth-deno).

Shallow embedding of src/oauth.js, src/encoding/uri.js,
src/encoding/uint8array.js and src/oauth/error.js. JS strings are
modelled as Lean `String` (sequences of Unicode scalar values), JS
numbers used here as `Nat`, nullable values as `Option`, and thrown
errors as `Except`. The platform capabilities the library delegates to
(encodeURIComponent, TextEncoder, URLSearchParams, HMAC-SHA1, base64)
are modelled from their ECMAScript / WHATWG specifications; HMAC-SHA1
and base64 are kept abstract and passed as function parameters, as the
repository treats them as external collaborators.
-/

namespace OAuthDeno

/-! ### Hex digits and UTF-8 bytes -/

/-- Model of the apostrophe character (code point 39), written this way
to keep character literals simple. -/
def apos : Char := Char.ofNat 39

/-- Uppercase hexadecimal digits, as used by percent escapes of
encodeURIComponent. -/
def hexDigitsUpper : List Char := "0123456789ABCDEF".data

/-- Lowercase hexadecimal digits, as produced by the JS toString of a
number with radix 16. -/
def hexDigitsLower : List Char := "0123456789abcdef".data

/-- Uppercase hex digit of a value below 16. -/
def hexDigitUpper (n : Nat) : Char := hexDigitsUpper.getD n '0'

/-- Lowercase hex digit of a value below 16. -/
def hexDigitLower (n : Nat) : Char := hexDigitsLower.getD n '0'

/-- UTF-8 encoding of a Unicode scalar value, as a list of byte
values. This models the byte-level view that both encodeURIComponent
and TextEncoder (parseUint8Array in src/encoding/uint8array.js) use. -/
def utf8Bytes (n : Nat) : List Nat :=
  if n < 128 then [n]
  else if n < 2048 then [192 + n / 64, 128 + n % 64]
  else if n < 65536 then [224 + n / 4096, 128 + n / 64 % 64, 128 + n % 64]
  else [240 + n / 262144, 128 + n / 4096 % 64, 128 + n / 64 % 64, 128 + n % 64]

/-- Percent escape of one byte with uppercase hex digits, the escape
format emitted by encodeURIComponent. -/
def percentByteUpper (b : Nat) : List Char :=
  ['%', hexDigitUpper (b / 16), hexDigitUpper (b % 16)]

/-- Model of the JS expression charCode.toString(16) on a natural
number: lowercase hex digits, no leading zeros. -/
def natToHexLower (n : Nat) : List Char :=
  if _h : n < 16 then [hexDigitLower n]
  else natToHexLower (n / 16) ++ [hexDigitLower (n % 16)]
termination_by n
decreasing_by omega

/-! ### The percent encoder (src/encoding/uri.js) -/

/-- Characters the ECMAScript builtin encodeURIComponent leaves
unescaped: ASCII alphanumerics and the RFC 2396 marks. -/
def isUnreserved2396 (c : Char) : Bool :=
  c.isAlphanum || c == '-' || c == '_' || c == '.' || c == '!' || c == '~'
    || c == '*' || c == apos || c == '(' || c == ')'

/-- Model of the ECMAScript builtin encodeURIComponent on one scalar
value: an unreserved character passes through, every other scalar value
is replaced by the uppercase percent escapes of its UTF-8 bytes. -/
def encodeURIComponentChar (c : Char) : List Char :=
  if isUnreserved2396 c then [c]
  else (utf8Bytes c.toNat).flatMap percentByteUpper

/-- Model of the ECMAScript builtin encodeURIComponent, which uri.js
aliases as encodeURIComponentRFC2396. -/
def encodeURIComponentRFC2396 (s : String) : String :=
  ⟨s.data.flatMap encodeURIComponentChar⟩

/-- Characters matched by the character class of the replace call in
uri.js: the exclamation mark, the apostrophe, the two parentheses and
the asterisk. -/
def isReplacedSpecial (c : Char) : Bool :=
  c == '!' || c == apos || c == '(' || c == ')' || c == '*'

/-- The replacement uri.js performs on one character: a matched special
character becomes a percent sign followed by the lowercase hex of its
code point, every other character is kept. -/
def replaceSpecialChar (c : Char) : List Char :=
  if isReplacedSpecial c then '%' :: natToHexLower c.toNat else [c]

/-- The replace call of uri.js applied over a whole string. A global
regex replace with a single-character class is a per-character map. -/
def replaceSpecials (s : String) : String :=
  ⟨s.data.flatMap replaceSpecialChar⟩

/-- encodeURIComponentRFC3986 from src/encoding/uri.js: the generic
URI-component encoding post-processed to also escape the five special
characters. -/
def encodeURIComponentRFC3986 (s : String) : String :=
  replaceSpecials (encodeURIComponentRFC2396 s)

/-- RFC 3986 unreserved characters, the set the specification says must
stay unescaped: ASCII alphanumerics, hyphen, underscore, period,
tilde. -/
def isUnreservedRFC3986 (c : Char) : Bool :=
  c.isAlphanum || c == '-' || c == '_' || c == '.' || c == '~'

/-- Specification-side description of the encoder, one scalar value at
a time: unreserved characters pass through, the five specials become
lowercase two-digit escapes, everything else becomes the uppercase
escapes of its UTF-8 bytes. Used to compare the implemented encoder
against the specified character-level behaviour. -/
def rfc3986EncodeCharSpec (c : Char) : List Char :=
  if isUnreservedRFC3986 c then [c]
  else if isReplacedSpecial c then '%' :: natToHexLower c.toNat
  else (utf8Bytes c.toNat).flatMap percentByteUpper

/-! ### Character-set lemmas -/

theorem getD_mem_of_mem_default {l : List Char} {d : Char} (hd : d ∈ l) (n : Nat) :
    l.getD n d ∈ l := by
  rw [List.getD_eq_getElem?_getD]
  cases h : l[n]? with
  | none => simp only [Option.getD_none]; exact hd
  | some c =>
    obtain ⟨hlt, hc⟩ := List.getElem?_eq_some_iff.mp h
    simp only [Option.getD_some]
    exact hc ▸ List.getElem_mem hlt

theorem hexDigitUpper_mem (n : Nat) : hexDigitUpper n ∈ hexDigitsUpper :=
  getD_mem_of_mem_default (by decide) n

theorem hexDigitLower_mem (n : Nat) : hexDigitLower n ∈ hexDigitsLower :=
  getD_mem_of_mem_default (by decide) n

theorem natToHexLower_subset (n : Nat) :
    ∀ c ∈ natToHexLower n, c ∈ hexDigitsLower := by
  induction n using Nat.strong_induction_on with
  | _ n ih =>
    intro c hc
    unfold natToHexLower at hc
    split at hc
    · simp only [List.mem_singleton] at hc
      exact hc ▸ hexDigitLower_mem n
    · rw [List.mem_append, List.mem_singleton] at hc
      rcases hc with hc | hc
      · exact ih (n / 16) (by omega) c hc
      · exact hc ▸ hexDigitLower_mem (n % 16)

theorem natToHexLower_ne_nil (n : Nat) : natToHexLower n ≠ [] := by
  unfold natToHexLower
  split <;> simp

theorem utf8Bytes_ne_nil (n : Nat) : utf8Bytes n ≠ [] := by
  unfold utf8Bytes
  split_ifs <;> simp

theorem utf8Bytes_lt_256 (n : Nat) (hn : n < 1114112) : ∀ b ∈ utf8Bytes n, b < 256 := by
  intro b hb
  unfold utf8Bytes at hb
  split_ifs at hb with h1 h2 h3 <;>
    simp only [List.mem_cons, List.not_mem_nil, or_false] at hb
  · omega
  · rcases hb with rfl | rfl <;> omega
  · rcases hb with rfl | rfl | rfl <;> omega
  · rcases hb with rfl | rfl | rfl | rfl <;> omega

theorem isReplacedSpecial_hexUpper (n : Nat) :
    isReplacedSpecial (hexDigitUpper n) = false := by
  have h := hexDigitUpper_mem n
  have : ∀ c ∈ hexDigitsUpper, isReplacedSpecial c = false := by decide
  exact this _ h

theorem specials_not_unreservedRFC3986 (c : Char)
    (h : isReplacedSpecial c = true) : isUnreservedRFC3986 c = false := by
  simp only [isReplacedSpecial, Bool.or_eq_true, beq_iff_eq] at h
  rcases h with (((rfl | rfl) | rfl) | rfl) | rfl <;> decide

theorem unreserved2396_eq (c : Char) :
    isUnreserved2396 c = (isUnreservedRFC3986 c || isReplacedSpecial c) := by
  simp only [isUnreserved2396, isUnreservedRFC3986, isReplacedSpecial]
  rw [Bool.eq_iff_iff]
  simp only [Bool.or_eq_true, beq_iff_eq]
  tauto

theorem percentByteUpper_fixed (b : Nat) :
    (percentByteUpper b).flatMap replaceSpecialChar = percentByteUpper b := by
  have h37 : isReplacedSpecial '%' = false := by decide
  simp [percentByteUpper, replaceSpecialChar, isReplacedSpecial_hexUpper, h37]

theorem replaceSpecials_encodeChar (c : Char) :
    (encodeURIComponentChar c).flatMap replaceSpecialChar = rfc3986EncodeCharSpec c := by
  have hsplit := unreserved2396_eq c
  by_cases h96 : isUnreserved2396 c = true
  · rw [encodeURIComponentChar, if_pos h96, List.flatMap_singleton,
      replaceSpecialChar, rfc3986EncodeCharSpec]
    by_cases hs : isReplacedSpecial c = true
    · rw [if_pos hs, if_neg (by simp [specials_not_unreservedRFC3986 c hs]), if_pos hs]
    · have h86 : isUnreservedRFC3986 c = true := by
        rw [h96] at hsplit
        cases hA : isUnreservedRFC3986 c
        · rw [hA] at hsplit
          cases hB : isReplacedSpecial c
          · rw [hB] at hsplit
            simp at hsplit
          · exact absurd hB hs
        · rfl
      rw [if_neg (by simp [hs]), if_pos h86]
  · have hboth : (isUnreservedRFC3986 c || isReplacedSpecial c) = false := by
      rw [← hsplit, Bool.eq_false_iff]
      exact h96
    rw [Bool.or_eq_false_iff] at hboth
    rw [encodeURIComponentChar, if_neg h96, rfc3986EncodeCharSpec,
      if_neg (by simp [hboth.1]), if_neg (by simp [hboth.2])]
    rw [List.flatMap_assoc]
    simp only [percentByteUpper_fixed]

/-- The whole encoder is the per-character specification map applied to
every scalar value of the input. -/
theorem encodeRFC3986_data (s : String) :
    (encodeURIComponentRFC3986 s).data = s.data.flatMap rfc3986EncodeCharSpec := by
  show (s.data.flatMap encodeURIComponentChar).flatMap replaceSpecialChar = _
  rw [List.flatMap_assoc]
  simp only [replaceSpecials_encodeChar]

theorem amp_not_mem_spec_char (c : Char) : '&' ∉ rfc3986EncodeCharSpec c := by
  intro hmem
  rw [rfc3986EncodeCharSpec] at hmem
  split_ifs at hmem with h1 h2
  · simp only [List.mem_singleton] at hmem
    rw [← hmem] at h1
    exact absurd h1 (by decide)
  · simp only [List.mem_cons] at hmem
    rcases hmem with h | h
    · exact absurd h (by decide)
    · have := natToHexLower_subset c.toNat '&' h
      exact absurd this (by decide)
  · rw [List.mem_flatMap] at hmem
    obtain ⟨b, _, hb⟩ := hmem
    simp only [percentByteUpper, List.mem_cons, List.not_mem_nil, or_false] at hb
    rcases hb with h | h | h
    · exact absurd h (by decide)
    · have := hexDigitUpper_mem (b / 16)
      rw [← h] at this
      exact absurd this (by decide)
    · have := hexDigitUpper_mem (b % 16)
      rw [← h] at this
      exact absurd this (by decide)

/-- The percent encoder never emits an ampersand. -/
theorem amp_not_mem_encode (s : String) :
    '&' ∉ (encodeURIComponentRFC3986 s).data := by
  rw [encodeRFC3986_data]
  intro hmem
  rw [List.mem_flatMap] at hmem
  obtain ⟨c, _, hc⟩ := hmem
  exact amp_not_mem_spec_char c hc

/-! ### Percent decoding (model of the platform decodeURIComponent)

The repository itself ships no decoder; the round-trip property of the
spec compares the encoder against the standard percent decoder:
unescape every percent escape to a byte, pass other characters through
as their UTF-8 bytes, then decode the byte sequence as UTF-8,
rejecting malformed input. On the all-ASCII strings the encoder
produces this agrees with the ECMAScript decodeURIComponent. -/

/-- Unicode scalar values are below 0xD800 or in (0xDFFF, 0x110000). -/
theorem char_toNat_valid (c : Char) :
    c.toNat < 55296 ∨ (57343 < c.toNat ∧ c.toNat < 1114112) := by
  rcases c.valid with h | ⟨h1, h2⟩
  · exact Or.inl (UInt32.toNat_lt_of_lt (by decide) h)
  · exact Or.inr ⟨UInt32.lt_toNat_of_lt (by decide) h1,
      UInt32.toNat_lt_of_lt (by decide) h2⟩

theorem char_toNat_lt (c : Char) : c.toNat < 1114112 := by
  rcases char_toNat_valid c with h | ⟨_, h⟩ <;> omega

/-- Value of a hex digit given as a byte (or code point), accepting
both cases; none for a non-hex-digit. -/
def hexByteValue (b : Nat) : Option Nat :=
  if 48 ≤ b ∧ b ≤ 57 then some (b - 48)
  else if 65 ≤ b ∧ b ≤ 70 then some (b - 55)
  else if 97 ≤ b ∧ b ≤ 102 then some (b - 87)
  else none

/-- Percent unescaping of a character sequence to a byte sequence: a
percent sign must be followed by two hex digits and yields that byte,
any other character contributes its UTF-8 bytes. -/
def percentUnescapeChars : List Char → Option (List Nat)
  | [] => some []
  | c :: rest =>
    if c = '%' then
      match rest with
      | c1 :: c2 :: rest2 =>
        match hexByteValue c1.toNat, hexByteValue c2.toNat with
        | some d1, some d2 =>
          (percentUnescapeChars rest2).map (fun bs => (16 * d1 + d2) :: bs)
        | _, _ => none
      | _ => none
    else (percentUnescapeChars rest).map (fun bs => utf8Bytes c.toNat ++ bs)

/-- Scalar value of a two-byte UTF-8 sequence with a valid lead byte,
when the continuation byte is in range. -/
def utf8Cont2 (b b2 : Nat) : Option Nat :=
  if 128 ≤ b2 ∧ b2 < 192 then some ((b - 192) * 64 + (b2 - 128)) else none

/-- Scalar value of a three-byte UTF-8 sequence, when the continuation
bytes are in range and the value is neither overlong nor a surrogate. -/
def utf8Cont3 (b b2 b3 : Nat) : Option Nat :=
  if 128 ≤ b2 ∧ b2 < 192 ∧ 128 ≤ b3 ∧ b3 < 192
      ∧ 2048 ≤ (b - 224) * 4096 + (b2 - 128) * 64 + (b3 - 128)
      ∧ ((b - 224) * 4096 + (b2 - 128) * 64 + (b3 - 128) < 55296
         ∨ 57343 < (b - 224) * 4096 + (b2 - 128) * 64 + (b3 - 128)) then
    some ((b - 224) * 4096 + (b2 - 128) * 64 + (b3 - 128))
  else none

/-- Scalar value of a four-byte UTF-8 sequence, when the continuation
bytes are in range and the value is neither overlong nor beyond the
last scalar value. -/
def utf8Cont4 (b b2 b3 b4 : Nat) : Option Nat :=
  if 128 ≤ b2 ∧ b2 < 192 ∧ 128 ≤ b3 ∧ b3 < 192 ∧ 128 ≤ b4 ∧ b4 < 192
      ∧ 65536 ≤ (b - 240) * 262144 + (b2 - 128) * 4096 + (b3 - 128) * 64 + (b4 - 128)
      ∧ (b - 240) * 262144 + (b2 - 128) * 4096 + (b3 - 128) * 64 + (b4 - 128) < 1114112 then
    some ((b - 240) * 262144 + (b2 - 128) * 4096 + (b3 - 128) * 64 + (b4 - 128))
  else none

mutual

/-- Strict UTF-8 decoding of a byte sequence into scalar values,
rejecting truncated, overlong and surrogate encodings. -/
def utf8DecodeStrict : List Nat → Option (List Char)
  | [] => some []
  | b :: bs =>
    if b < 128 then (utf8DecodeStrict bs).map (fun cs => Char.ofNat b :: cs)
    else if 194 ≤ b ∧ b < 224 then utf8DecodeTail2 b bs
    else if 224 ≤ b ∧ b < 240 then utf8DecodeTail3 b bs
    else if 240 ≤ b ∧ b < 245 then utf8DecodeTail4 b bs
    else none
termination_by l => l.length

/-- Continuation of strict UTF-8 decoding after a two-byte lead. -/
def utf8DecodeTail2 (b : Nat) : List Nat → Option (List Char)
  | b2 :: rest =>
    (utf8Cont2 b b2).bind
      (fun n => (utf8DecodeStrict rest).map (fun cs => Char.ofNat n :: cs))
  | [] => none
termination_by l => l.length

/-- Continuation of strict UTF-8 decoding after a three-byte lead. -/
def utf8DecodeTail3 (b : Nat) : List Nat → Option (List Char)
  | b2 :: b3 :: rest =>
    (utf8Cont3 b b2 b3).bind
      (fun n => (utf8DecodeStrict rest).map (fun cs => Char.ofNat n :: cs))
  | _ => none
termination_by l => l.length

/-- Continuation of strict UTF-8 decoding after a four-byte lead. -/
def utf8DecodeTail4 (b : Nat) : List Nat → Option (List Char)
  | b2 :: b3 :: b4 :: rest =>
    (utf8Cont4 b b2 b3 b4).bind
      (fun n => (utf8DecodeStrict rest).map (fun cs => Char.ofNat n :: cs))
  | _ => none
termination_by l => l.length

end

/-- Model of the platform decodeURIComponent as used by the round-trip
property of the spec. -/
def decodeURIComponentModel (s : String) : Option String :=
  (percentUnescapeChars s.data).bind
    (fun bs => (utf8DecodeStrict bs).map (fun cs => String.mk cs))

theorem hexByteValue_hexDigitUpper : ∀ m, m < 16 →
    hexByteValue (hexDigitUpper m).toNat = some m := by decide

theorem hexByteValue_hexDigitLower : ∀ m, m < 16 →
    hexByteValue (hexDigitLower m).toNat = some m := by decide

theorem alphanum_toNat_lt (c : Char) (h : c.isAlphanum = true) : c.toNat < 128 := by
  simp only [Char.isAlphanum, Char.isAlpha, Char.isUpper, Char.isLower, Char.isDigit,
    Bool.or_eq_true, Bool.and_eq_true, decide_eq_true_eq] at h
  rcases h with (⟨_, h2⟩ | ⟨_, h2⟩) | ⟨_, h2⟩ <;>
    exact Nat.lt_of_le_of_lt (UInt32.toNat_le_of_le (by decide) h2) (by decide)

theorem unreservedRFC3986_toNat_lt (c : Char) (h : isUnreservedRFC3986 c = true) :
    c.toNat < 128 := by
  simp only [isUnreservedRFC3986, Bool.or_eq_true, beq_iff_eq] at h
  rcases h with ((((h | rfl) | rfl) | rfl) | rfl)
  · exact alphanum_toNat_lt c h
  all_goals decide

theorem percentUnescapeChars_cons_not_pct (c : Char) (l : List Char) (hc : ¬ c = '%') :
    percentUnescapeChars (c :: l) =
      (percentUnescapeChars l).map (fun bs => utf8Bytes c.toNat ++ bs) := by
  match l with
  | [] => rw [percentUnescapeChars.eq_3 c [] (by intro a b r h; simp at h), if_neg hc]
  | [c1] => rw [percentUnescapeChars.eq_3 c [c1] (by intro a b r h; simp at h), if_neg hc]
  | c1 :: c2 :: rest => rw [percentUnescapeChars.eq_2, if_neg hc]

theorem percentUnescapeChars_escape (b : Nat) (hb : b < 256) (l : List Char) :
    percentUnescapeChars (percentByteUpper b ++ l) =
      (percentUnescapeChars l).map (fun bs => b :: bs) := by
  show percentUnescapeChars ('%' :: hexDigitUpper (b / 16) :: hexDigitUpper (b % 16) :: l) = _
  rw [percentUnescapeChars, if_pos rfl]
  rw [hexByteValue_hexDigitUpper (b / 16) (by omega),
    hexByteValue_hexDigitUpper (b % 16) (by omega)]
  show (percentUnescapeChars l).map (fun bs => (16 * (b / 16) + b % 16) :: bs) = _
  have hbb : 16 * (b / 16) + b % 16 = b := by omega
  rw [hbb]

theorem percentUnescapeChars_escapes (bs : List Nat) (h : ∀ b ∈ bs, b < 256)
    (l : List Char) :
    percentUnescapeChars (bs.flatMap percentByteUpper ++ l) =
      (percentUnescapeChars l).map (fun tail => bs ++ tail) := by
  induction bs with
  | nil => simp
  | cons b rest ih =>
    rw [List.flatMap_cons, List.append_assoc,
      percentUnescapeChars_escape b (h b (by simp)) _,
      ih (fun x hx => h x (by simp [hx]))]
    cases percentUnescapeChars l <;> simp

theorem natToHexLower_two_digits (n : Nat) (h1 : 16 ≤ n) (h2 : n < 256) :
    natToHexLower n = [hexDigitLower (n / 16), hexDigitLower (n % 16)] := by
  rw [natToHexLower, dif_neg (by omega), natToHexLower, dif_pos (by omega)]
  rfl

theorem percentUnescapeChars_special (c : Char) (h16 : 16 ≤ c.toNat)
    (h128 : c.toNat < 128) (l : List Char) :
    percentUnescapeChars (('%' :: natToHexLower c.toNat) ++ l) =
      (percentUnescapeChars l).map (fun bs => utf8Bytes c.toNat ++ bs) := by
  rw [natToHexLower_two_digits c.toNat h16 (by omega)]
  show percentUnescapeChars
      ('%' :: hexDigitLower (c.toNat / 16) :: hexDigitLower (c.toNat % 16) :: l) = _
  rw [percentUnescapeChars, if_pos rfl,
    hexByteValue_hexDigitLower _ (by omega), hexByteValue_hexDigitLower _ (by omega)]
  show (percentUnescapeChars l).map (fun bs => (16 * (c.toNat / 16) + c.toNat % 16) :: bs) = _
  have hbb : 16 * (c.toNat / 16) + c.toNat % 16 = c.toNat := by omega
  have hu : utf8Bytes c.toNat = [c.toNat] := by rw [utf8Bytes, if_pos h128]
  rw [hbb, hu]
  simp only [List.singleton_append]

theorem percentUnescapeChars_encodeChar (c : Char) (l : List Char) :
    percentUnescapeChars (rfc3986EncodeCharSpec c ++ l) =
      (percentUnescapeChars l).map (fun bs => utf8Bytes c.toNat ++ bs) := by
  rw [rfc3986EncodeCharSpec]
  by_cases h86 : isUnreservedRFC3986 c = true
  · rw [if_pos h86]
    have hc : ¬ c = '%' := by
      intro hce
      rw [hce] at h86
      exact absurd h86 (by decide)
    rw [List.singleton_append, percentUnescapeChars_cons_not_pct c l hc]
  · rw [if_neg h86]
    by_cases hs : isReplacedSpecial c = true
    · rw [if_pos hs]
      have hrange : 16 ≤ c.toNat ∧ c.toNat < 128 := by
        simp only [isReplacedSpecial, Bool.or_eq_true, beq_iff_eq] at hs
        rcases hs with (((rfl | rfl) | rfl) | rfl) | rfl <;> exact ⟨by decide, by decide⟩
      exact percentUnescapeChars_special c hrange.1 hrange.2 l
    · rw [if_neg hs]
      exact percentUnescapeChars_escapes (utf8Bytes c.toNat)
        (utf8Bytes_lt_256 c.toNat (char_toNat_lt c)) l

theorem utf8DecodeStrict_utf8Bytes (c : Char) (bs : List Nat) :
    utf8DecodeStrict (utf8Bytes c.toNat ++ bs) =
      (utf8DecodeStrict bs).map (fun cs => c :: cs) := by
  have hv := char_toNat_valid c
  by_cases h1 : c.toNat < 128
  · have hb : utf8Bytes c.toNat = [c.toNat] := by rw [utf8Bytes, if_pos h1]
    rw [hb, List.singleton_append, utf8DecodeStrict, if_pos h1, Char.ofNat_toNat]
  · by_cases h2 : c.toNat < 2048
    · have hb : utf8Bytes c.toNat = [192 + c.toNat / 64, 128 + c.toNat % 64] := by
        rw [utf8Bytes, if_neg h1, if_pos h2]
      rw [hb]
      show utf8DecodeStrict ((192 + c.toNat / 64) :: (128 + c.toNat % 64) :: bs) = _
      rw [utf8DecodeStrict, if_neg (by omega), if_pos (by omega), utf8DecodeTail2,
        utf8Cont2, if_pos (by omega)]
      simp only [Option.some_bind]
      have he : (192 + c.toNat / 64 - 192) * 64 + (128 + c.toNat % 64 - 128) = c.toNat := by
        omega
      rw [he, Char.ofNat_toNat]
    · by_cases h3 : c.toNat < 65536
      · have hb : utf8Bytes c.toNat =
            [224 + c.toNat / 4096, 128 + c.toNat / 64 % 64, 128 + c.toNat % 64] := by
          rw [utf8Bytes, if_neg h1, if_neg h2, if_pos h3]
        rw [hb]
        show utf8DecodeStrict
          ((224 + c.toNat / 4096) :: (128 + c.toNat / 64 % 64) :: (128 + c.toNat % 64) :: bs) = _
        rw [utf8DecodeStrict, if_neg (by omega), if_neg (by omega), if_pos (by omega),
          utf8DecodeTail3, utf8Cont3, if_pos (by omega)]
        simp only [Option.some_bind]
        have he : (224 + c.toNat / 4096 - 224) * 4096 + (128 + c.toNat / 64 % 64 - 128) * 64
            + (128 + c.toNat % 64 - 128) = c.toNat := by omega
        rw [he, Char.ofNat_toNat]
      · have h4 : c.toNat < 1114112 := char_toNat_lt c
        have hb : utf8Bytes c.toNat = [240 + c.toNat / 262144, 128 + c.toNat / 4096 % 64,
            128 + c.toNat / 64 % 64, 128 + c.toNat % 64] := by
          rw [utf8Bytes, if_neg h1, if_neg h2, if_neg h3]
        rw [hb]
        show utf8DecodeStrict ((240 + c.toNat / 262144) :: (128 + c.toNat / 4096 % 64)
          :: (128 + c.toNat / 64 % 64) :: (128 + c.toNat % 64) :: bs) = _
        rw [utf8DecodeStrict, if_neg (by omega), if_neg (by omega), if_neg (by omega),
          if_pos (by omega), utf8DecodeTail4, utf8Cont4, if_pos (by omega)]
        simp only [Option.some_bind]
        have he : (240 + c.toNat / 262144 - 240) * 262144 + (128 + c.toNat / 4096 % 64 - 128) * 4096
            + (128 + c.toNat / 64 % 64 - 128) * 64 + (128 + c.toNat % 64 - 128) = c.toNat := by
          omega
        rw [he, Char.ofNat_toNat]

theorem percentUnescapeChars_encode_list (l : List Char) :
    percentUnescapeChars (l.flatMap rfc3986EncodeCharSpec) =
      some (l.flatMap (fun c => utf8Bytes c.toNat)) := by
  induction l with
  | nil => rfl
  | cons c rest ih =>
    rw [List.flatMap_cons]
    rw [percentUnescapeChars_encodeChar c (rest.flatMap rfc3986EncodeCharSpec), ih]
    rfl

theorem utf8DecodeStrict_encode_list (l : List Char) :
    utf8DecodeStrict (l.flatMap (fun c => utf8Bytes c.toNat)) = some l := by
  induction l with
  | nil => rw [List.flatMap_nil, utf8DecodeStrict]
  | cons c rest ih =>
    rw [List.flatMap_cons, utf8DecodeStrict_utf8Bytes, ih]
    rfl

/-! ### Parameter canonicalization and signature strings (oauth.js) -/

/-- Parameter pairs, the representation of key-value lists used
throughout oauth.js. -/
abbrev Param := String × String

/-- Percent-encoding of one parameter pair, the first map of the
canonicalization pipeline in getSignature. -/
def encodeParamPair (p : Param) : Param :=
  (encodeURIComponentRFC3986 p.1, encodeURIComponentRFC3986 p.2)

/-- The comparator passed to the sort call in getSignature: encoded key
first, encoded value as the tie break. JS compares strings by code
units; on the all-ASCII percent-encoded strings compared here that
coincides with the Lean order on strings used below. -/
def sortCompare (a b : Param) : Int :=
  if a.1 < b.1 then -1
  else if b.1 < a.1 then 1
  else if a.2 < b.2 then -1
  else if b.2 < a.2 then 1
  else 0

/-- The sort order induced by the comparator: a sorts no later than b
when the comparator does not return a positive value. -/
def sortLe (a b : Param) : Bool := decide (sortCompare a b ≤ 0)

/-- The canonical parameter string built in getSignature: spread the
three lists, percent-encode every pair, sort with the comparator, and
join each pair with an equals sign and the pairs with ampersands. -/
def paramsString (params oAuthParams bodyParams : List Param) : String :=
  String.intercalate "&"
    ((((params ++ oAuthParams ++ bodyParams).map encodeParamPair).mergeSort sortLe).map
      (fun p => p.1 ++ "=" ++ p.2))

/-- Model of the JS string method toUpperCase: the ASCII mapping, which
agrees with the platform method on the ASCII method names signed
here. -/
def toUpperCase (s : String) : String := ⟨s.data.map Char.toUpper⟩

/-- The signature base string built in getSignature. -/
def signatureBaseString (method requestURL : String)
    (params oAuthParams bodyParams : List Param) : String :=
  toUpperCase method ++ "&" ++ encodeURIComponentRFC3986 requestURL ++ "&"
    ++ encodeURIComponentRFC3986 (paramsString params oAuthParams bodyParams)

/-- The HMAC signing key string built in getSignature: the encoded
consumer secret and the encoded token secret joined by an ampersand,
present even when the token secret is empty. -/
def keyString (consumerSecret tokenSecret : String) : String :=
  encodeURIComponentRFC3986 consumerSecret ++ "&" ++ encodeURIComponentRFC3986 tokenSecret

theorem sortLe_iff (a b : Param) :
    sortLe a b = true ↔ a.1 < b.1 ∨ (a.1 = b.1 ∧ ¬ b.2 < a.2) := by
  unfold sortLe sortCompare
  split_ifs with h1 h2 h3 h4
  · simp only [decide_eq_true_eq]
    constructor
    · intro _
      exact Or.inl h1
    · intro _
      decide
  · simp only [decide_eq_true_eq]
    constructor
    · intro h
      exact absurd h (by decide)
    · rintro (h | ⟨he, -⟩)
      · exact absurd h h1
      · exact absurd h2 (by rw [he]; exact lt_irrefl _)
  · have hk : a.1 = b.1 := le_antisymm (not_lt.mp h2) (not_lt.mp h1)
    simp only [decide_eq_true_eq]
    constructor
    · intro _
      exact Or.inr ⟨hk, lt_asymm h3⟩
    · intro _
      decide
  · simp only [decide_eq_true_eq]
    constructor
    · intro h
      exact absurd h (by decide)
    · rintro (h | ⟨-, hnot⟩)
      · exact absurd h h1
      · exact absurd h4 hnot
  · have hk : a.1 = b.1 := le_antisymm (not_lt.mp h2) (not_lt.mp h1)
    simp only [decide_eq_true_eq]
    constructor
    · intro _
      exact Or.inr ⟨hk, h4⟩
    · intro _
      decide

theorem sortLe_total (a b : Param) : sortLe a b || sortLe b a := by
  rw [Bool.or_eq_true, sortLe_iff, sortLe_iff]
  rcases lt_trichotomy a.1 b.1 with h | h | h
  · exact Or.inl (Or.inl h)
  · rcases le_or_lt b.2 a.2 with hv | hv
    · exact Or.inr (Or.inr ⟨h.symm, not_lt.mpr hv⟩)
    · exact Or.inl (Or.inr ⟨h, not_lt.mpr (le_of_lt hv)⟩)
  · exact Or.inr (Or.inl h)

theorem sortLe_trans (a b c : Param) :
    sortLe a b → sortLe b c → sortLe a c := by
  intro hab hbc
  rw [sortLe_iff] at hab hbc ⊢
  rcases hab with h1 | ⟨h1, h1v⟩ <;> rcases hbc with h2 | ⟨h2, h2v⟩
  · exact Or.inl (lt_trans h1 h2)
  · exact Or.inl (h2 ▸ h1)
  · exact Or.inl (h1 ▸ h2)
  · exact Or.inr ⟨h1.trans h2, fun hv => h1v (lt_of_le_of_lt (not_lt.mp h2v) hv)⟩

theorem sortLe_antisymm (a b : Param) :
    sortLe a b = true → sortLe b a = true → a = b := by
  intro hab hba
  rw [sortLe_iff] at hab hba
  rcases hab with h1 | ⟨h1, h1v⟩
  · rcases hba with h2 | ⟨h2, -⟩
    · exact absurd h2 (lt_asymm h1)
    · exact absurd (h2 ▸ h1) (lt_irrefl _)
  · rcases hba with h2 | ⟨-, h2v⟩
    · exact absurd h2 (h1 ▸ lt_irrefl _)
    · have hv : a.2 = b.2 := le_antisymm (not_lt.mp h1v) (not_lt.mp h2v)
      exact Prod.ext h1 hv

/-- Sorting with the comparator is a function of the multiset of
encoded pairs: two permuted inputs sort to the same list. -/
theorem mergeSort_sortLe_eq_of_perm {l₁ l₂ : List Param} (h : l₁.Perm l₂) :
    l₁.mergeSort sortLe = l₂.mergeSort sortLe := by
  haveI : IsAntisymm Param (fun a b => sortLe a b = true) :=
    ⟨fun a b => sortLe_antisymm a b⟩
  refine List.eq_of_perm_of_sorted (r := fun a b => sortLe a b = true) ?_ ?_ ?_
  · exact ((List.mergeSort_perm l₁ sortLe).trans h).trans (List.mergeSort_perm l₂ sortLe).symm
  · exact List.sorted_mergeSort (fun a b c => sortLe_trans a b c) sortLe_total l₁
  · exact List.sorted_mergeSort (fun a b c => sortLe_trans a b c) sortLe_total l₂

/-! ### The OAuth client (oauth.js)

The client holds the consumer credential pair and a mutable token
pair. Token fields hold a JS string or null; a freshly constructed
client has the empty string in both. The nonce and timestamp
generators and the HMAC-SHA1 and base64 capabilities are external, so
they enter the model as parameters. Methods that mutate the token
return the updated client state explicitly. -/

/-- State of one OAuth client object. -/
structure OAuthClient where
  consumerKey : String
  consumerSecret : String
  token : Option String
  tokenSecret : Option String
deriving DecidableEq

/-- Coercion of a possibly-null JS string to a string, as performed
implicitly when such a value is interpolated or percent-encoded. -/
def jsCoerceString (v : Option String) : String := v.getD "null"

/-- setToken: both parameters default to the empty string when the
argument is omitted; a null argument is stored as given. The outer
option is the argument presence, the inner one the nullable value. -/
def setToken (client : OAuthClient) (token tokenSecret : Option (Option String)) :
    OAuthClient :=
  { client with
    token := token.getD (some "")
    tokenSecret := tokenSecret.getD (some "") }

/-- Model of parseUint8Array (TextEncoder.encode): the UTF-8 bytes of
a string. -/
def strToBytes (s : String) : List Nat :=
  s.data.flatMap (fun c => utf8Bytes c.toNat)

/-- getSignature: HMAC-SHA1 of the signature base string under the
signing key, base64 encoded. The HMAC and base64 capabilities are
abstract parameters. -/
def getSignature (hmac : List Nat → List Nat → List Nat)
    (encodeBase64 : List Nat → String) (consumerSecret tokenSecret : String)
    (method requestURL : String) (params oAuthParams bodyParams : List Param) : String :=
  encodeBase64
    (hmac (strToBytes (signatureBaseString method requestURL params oAuthParams bodyParams))
      (strToBytes (keyString consumerSecret tokenSecret)))

/-- The credential list assembled in getCredentials: the OAuth
parameters followed by the freshly computed signature. -/
def credentialsList (oAuthParams : List Param) (signature : String) : List Param :=
  oAuthParams ++ [("oauth_signature", signature)]

/-- One key-value credential as rendered into the Authorization
header: encoded key, equals sign, encoded value wrapped in double
quotes. -/
def credentialPart (p : Param) : String :=
  encodeURIComponentRFC3986 p.1 ++ "=\"" ++ encodeURIComponentRFC3986 p.2 ++ "\""

/-- getCredentials: render the credential list, comma separated. -/
def getCredentials (hmac : List Nat → List Nat → List Nat)
    (encodeBase64 : List Nat → String) (client : OAuthClient)
    (method requestURL : String) (params oAuthParams bodyParams : List Param) : String :=
  String.intercalate ", "
    ((credentialsList oAuthParams
        (getSignature hmac encodeBase64 client.consumerSecret
          (jsCoerceString client.tokenSecret) method requestURL params oAuthParams
          bodyParams)).map credentialPart)

/-- getAuthHeaderValue: the OAuth auth-scheme marker followed by the
credentials. -/
def getAuthHeaderValue (hmac : List Nat → List Nat → List Nat)
    (encodeBase64 : List Nat → String) (client : OAuthClient)
    (method requestURL : String) (params oAuthParams bodyParams : List Param) : String :=
  "OAuth " ++ getCredentials hmac encodeBase64 client method requestURL params
    oAuthParams bodyParams

/-- A body value supplied by the caller: either a parameter list (for
form-encoded bodies) or a plain string (for opaque bodies). -/
inductive BodyValue where
  | params (l : List Param)
  | str (s : String)
deriving DecidableEq

/-- JS truthiness of the optional bodyValue: absent and the empty
string are falsy, arrays (even empty ones) are truthy. -/
def jsTruthyBodyValue : Option BodyValue → Bool
  | none => false
  | some (BodyValue.params _) => true
  | some (BodyValue.str s) => !(s == "")

/-- The body handed to the request, with the serialization of the two
encoded forms kept symbolic: the JSON and raw forms carry the value
they serialize, the form-encoded form carries the parameter list that
buildQuery serializes. -/
inductive BuiltBody where
  | jsonStringified (v : BodyValue)
  | formEncoded (v : BodyValue)
  | rawValue (v : BodyValue)
deriving DecidableEq

/-- buildQuery: encoded key, equals sign, encoded value, joined with
ampersands. -/
def buildQuery (params : List Param) : String :=
  String.intercalate "&"
    (params.map (fun p =>
      encodeURIComponentRFC3986 p.1 ++ "=" ++ encodeURIComponentRFC3986 p.2))

/-- buildURL: the request URL alone for a POST-with-body or an empty
parameter list, otherwise the URL with the query string appended. -/
def buildURL (requestURL : String) (params : List Param) (isPost : Bool) : String :=
  if isPost || params.isEmpty then requestURL
  else requestURL ++ "?" ++ buildQuery params

/-- buildBody: dispatch on the content type; serialization itself is
symbolic (see BuiltBody). -/
def buildBody (bodyValue : BodyValue) (contentType : String) : BuiltBody :=
  if contentType == "application/json" then BuiltBody.jsonStringified bodyValue
  else if contentType == "application/x-www-form-urlencoded" then
    BuiltBody.formEncoded bodyValue
  else BuiltBody.rawValue bodyValue

/-- The POST test in makeRequest: the method is POST and the body
value is truthy. -/
def isPost (method : String) (bodyValue : Option BodyValue) : Bool :=
  method == "POST" && jsTruthyBodyValue bodyValue

/-- The parameter list carried by a body value; a string body under
the form content type is a caller contract violation and contributes
no parameters here. -/
def bodyParamsList : Option BodyValue → List Param
  | some (BodyValue.params l) => l
  | _ => []

/-- The request descriptor constructed by makeRequest. -/
structure RequestModel where
  url : String
  method : String
  authorization : String
  contentType : Option String
  body : Option BuiltBody
deriving DecidableEq

/-- makeRequest: the shared request building algorithm. -/
def makeRequest (hmac : List Nat → List Nat → List Nat)
    (encodeBase64 : List Nat → String) (client : OAuthClient)
    (requestURL method : String) (params oAuthParams : List Param)
    (contentType : String) (bodyValue : Option BodyValue) : RequestModel :=
  let post := isPost method bodyValue
  let url := buildURL requestURL params post
  let bodyParams :=
    if post && (contentType == "application/x-www-form-urlencoded") then
      bodyParamsList bodyValue
    else []
  let authorization := getAuthHeaderValue hmac encodeBase64 client method requestURL
    params oAuthParams bodyParams
  let body :=
    if post then bodyValue.map (fun v => buildBody v contentType) else none
  { url := url
    method := method
    authorization := authorization
    contentType := if post then some contentType else none
    body := body }

/-- The OAuth parameter set assembled by makeRequestForRequestToken. -/
def requestTokenOAuthParams (client : OAuthClient) (nonce : String)
    (timestamp : Nat) (callbackURL : String) : List Param :=
  [("oauth_callback", callbackURL),
   ("oauth_consumer_key", client.consumerKey),
   ("oauth_nonce", nonce),
   ("oauth_signature_method", "HMAC-SHA1"),
   ("oauth_timestamp", toString timestamp),
   ("oauth_version", "1.0")]

/-- makeRequestForRequestToken: reset the token pair, assemble the
OAuth parameters and build the request. The method, params and
callbackURL options default to POST, the empty list and the
out-of-band marker; the nonce and timestamp generators are passed in
as their generated values. -/
def makeRequestForRequestToken (hmac : List Nat → List Nat → List Nat)
    (encodeBase64 : List Nat → String) (client : OAuthClient)
    (nonce : String) (timestamp : Nat) (requestTokenURL : String)
    (methodOpt : Option String) (paramsOpt : Option (List Param))
    (callbackURLOpt : Option String) : RequestModel × OAuthClient :=
  let method := methodOpt.getD "POST"
  let params := paramsOpt.getD []
  let callbackURL := callbackURLOpt.getD "oob"
  let client := setToken client none none
  let oAuthParams := requestTokenOAuthParams client nonce timestamp callbackURL
  (makeRequest hmac encodeBase64 client requestTokenURL method params oAuthParams
    "application/x-www-form-urlencoded" none, client)

/-- The OAuth parameter set assembled by makeRequestForAccessToken. -/
def accessTokenOAuthParams (client : OAuthClient) (nonce : String)
    (timestamp : Nat) (verifier : String) : List Param :=
  [("oauth_consumer_key", client.consumerKey),
   ("oauth_nonce", nonce),
   ("oauth_signature_method", "HMAC-SHA1"),
   ("oauth_timestamp", toString timestamp),
   ("oauth_token", jsCoerceString client.token),
   ("oauth_verifier", verifier),
   ("oauth_version", "1.0")]

/-- makeRequestForAccessToken: the only option is the method
(defaulting to POST); no params and no body value can be supplied. -/
def makeRequestForAccessToken (hmac : List Nat → List Nat → List Nat)
    (encodeBase64 : List Nat → String) (client : OAuthClient)
    (nonce : String) (timestamp : Nat) (accessTokenURL verifier : String)
    (methodOpt : Option String) : RequestModel :=
  let method := methodOpt.getD "POST"
  let oAuthParams := accessTokenOAuthParams client nonce timestamp verifier
  makeRequest hmac encodeBase64 client accessTokenURL method [] oAuthParams
    "application/x-www-form-urlencoded" none

/-! ### URLSearchParams (platform model) and the token responses -/

/-- Lenient UTF-8 decoding with replacement characters, the decoding
URLSearchParams applies to form-decoded bytes, written with explicit
fuel so the recursion is structural: after an invalid continuation the
decoder reconsumes the lookahead bytes, which consumes fuel without
shortening the list. Malformed sequences become the replacement
character; the precise replacement granularity is irrelevant to the
properties proved here. -/
def utf8DecodeLenientFuel : Nat → List Nat → List Char
  | 0, _ => []
  | _ + 1, [] => []
  | fuel + 1, b :: bs =>
    if b < 128 then Char.ofNat b :: utf8DecodeLenientFuel fuel bs
    else if 194 ≤ b ∧ b < 224 then
      match bs with
      | b2 :: rest =>
        if 128 ≤ b2 ∧ b2 < 192 then
          Char.ofNat ((b - 192) * 64 + (b2 - 128)) :: utf8DecodeLenientFuel fuel rest
        else Char.ofNat 65533 :: utf8DecodeLenientFuel fuel (b2 :: rest)
      | [] => [Char.ofNat 65533]
    else if 224 ≤ b ∧ b < 240 then
      match bs with
      | b2 :: b3 :: rest =>
        match utf8Cont3 b b2 b3 with
        | some n => Char.ofNat n :: utf8DecodeLenientFuel fuel rest
        | none => Char.ofNat 65533 :: utf8DecodeLenientFuel fuel (b2 :: b3 :: rest)
      | _ => [Char.ofNat 65533]
    else if 240 ≤ b ∧ b < 245 then
      match bs with
      | b2 :: b3 :: b4 :: rest =>
        match utf8Cont4 b b2 b3 b4 with
        | some n => Char.ofNat n :: utf8DecodeLenientFuel fuel rest
        | none => Char.ofNat 65533 :: utf8DecodeLenientFuel fuel (b2 :: b3 :: b4 :: rest)
      | _ => [Char.ofNat 65533]
    else Char.ofNat 65533 :: utf8DecodeLenientFuel fuel bs

/-- Lenient UTF-8 decoding; the length of the list bounds the number
of decoding steps, so it serves as fuel. -/
def utf8DecodeLenient (bs : List Nat) : List Char :=
  utf8DecodeLenientFuel bs.length bs

/-- Percent decoding at the byte level as the form-urlencoded parser
performs it, with fuel for the same reason as the lenient decoder: a
percent byte followed by two hex digits becomes that byte, anything
else passes through and decoding resumes at the following byte. -/
def percentDecodeBytesFuel : Nat → List Nat → List Nat
  | 0, _ => []
  | _ + 1, [] => []
  | fuel + 1, b :: bs =>
    if b = 37 then
      match bs with
      | b1 :: b2 :: rest =>
        match hexByteValue b1, hexByteValue b2 with
        | some d1, some d2 => (16 * d1 + d2) :: percentDecodeBytesFuel fuel rest
        | _, _ => 37 :: percentDecodeBytesFuel fuel (b1 :: b2 :: rest)
      | _ => 37 :: percentDecodeBytesFuel fuel bs
    else b :: percentDecodeBytesFuel fuel bs

/-- Percent decoding of a byte sequence. -/
def percentDecodeBytes (bs : List Nat) : List Nat :=
  percentDecodeBytesFuel bs.length bs

/-- Plus-to-space replacement of the form-urlencoded parser. -/
def plusToSpace (c : Char) : Char := if c == '+' then ' ' else c

/-- Decoding of one name or value of a form-urlencoded piece: plus to
space, percent-unescape the UTF-8 bytes, decode leniently. -/
def formDecode (piece : List Char) : String :=
  ⟨utf8DecodeLenient
    (percentDecodeBytes ((piece.map plusToSpace).flatMap (fun c => utf8Bytes c.toNat)))⟩

/-- Split on ampersands, keeping empty pieces (they are filtered out
afterwards, as in the form-urlencoded parser). -/
def splitOnAmp : List Char → List (List Char)
  | [] => [[]]
  | c :: rest =>
    if c == '&' then [] :: splitOnAmp rest
    else
      match splitOnAmp rest with
      | t :: ts => (c :: t) :: ts
      | [] => [[c]]

/-- Split a piece at its first equals sign; none when there is no
equals sign. -/
def splitFirstEq : List Char → List Char × Option (List Char)
  | [] => ([], none)
  | c :: rest =>
    if c == '=' then ([], some rest)
    else
      let r := splitFirstEq rest
      (c :: r.1, r.2)

/-- Model of the URLSearchParams constructor on a string: strip one
leading question mark, split on ampersands, drop empty pieces, split
each piece at its first equals sign and form-decode name and value (a
piece without an equals sign has the empty value). -/
def parseSearchParams (s : String) : List Param :=
  let chars :=
    match s.data with
    | c :: rest => if c == '?' then rest else c :: rest
    | [] => []
  ((splitOnAmp chars).filter (fun piece => !piece.isEmpty)).map
    (fun piece =>
      let r := splitFirstEq piece
      (formDecode r.1, formDecode (r.2.getD [])))

/-- URLSearchParams get: the value of the first pair with the given
name, or null. -/
def searchParamsGet (params : List Param) (key : String) : Option String :=
  (params.find? (fun p => p.1 == key)).map (fun p => p.2)

/-- JS truthiness of a nullable string: null and the empty string are
falsy. -/
def jsTruthyOptStr : Option String → Bool
  | none => false
  | some s => !(s == "")

/-- Model of the OAuthError class (src/oauth/error.js): the name field
is always the class name, so only the message distinguishes errors. -/
structure OAuthErrorModel where
  message : String
deriving DecidableEq

/-- The response surface consumed by the token-exchange methods: the ok
flag and the text body. -/
structure ResponseModel where
  ok : Bool
  body : String
deriving DecidableEq

/-- getRequestTokenParamsFrom: reject a non-success response, reject a
body whose oauth_callback_confirmed is absent or falsy, otherwise
store the token pair from the body and return the parsed parameters.
The returned client is the token state after the call. -/
def getRequestTokenParamsFrom (client : OAuthClient) (response : ResponseModel) :
    Except OAuthErrorModel (List Param) × OAuthClient :=
  if !response.ok then
    (Except.error ⟨"Failed to get request token"⟩, client)
  else
    let params := parseSearchParams response.body
    if !jsTruthyOptStr (searchParamsGet params "oauth_callback_confirmed") then
      (Except.error ⟨"Unconfirmed callback"⟩, client)
    else
      (Except.ok params,
        setToken client (some (searchParamsGet params "oauth_token"))
          (some (searchParamsGet params "oauth_token_secret")))

/-- getAccessTokenParamsFrom: reject a non-success response, otherwise
store the token pair from the body and return the parsed parameters. -/
def getAccessTokenParamsFrom (client : OAuthClient) (response : ResponseModel) :
    Except OAuthErrorModel (List Param) × OAuthClient :=
  if !response.ok then
    (Except.error ⟨"Failed to get access token"⟩, client)
  else
    let params := parseSearchParams response.body
    (Except.ok params,
      setToken client (some (searchParamsGet params "oauth_token"))
        (some (searchParamsGet params "oauth_token_secret")))

/-! ### Claim theorems -/

/-- C1: for every method, base URL and canonical parameter string the
signature base string built inside getSignature is the uppercase of
the method, a literal ampersand, the percent-encoding of the base URL,
a literal ampersand, and the percent-encoding of the canonical
parameter string; the two separators stay unencoded (the encoded
components contain no ampersand at all). -/
theorem claim_C1_base_string (method requestURL : String)
    (params oAuthParams bodyParams : List Param) :
    signatureBaseString method requestURL params oAuthParams bodyParams =
      toUpperCase method ++ "&" ++ encodeURIComponentRFC3986 requestURL ++ "&"
        ++ encodeURIComponentRFC3986 (paramsString params oAuthParams bodyParams)
    ∧ '&' ∉ (encodeURIComponentRFC3986 requestURL).data
    ∧ '&' ∉ (encodeURIComponentRFC3986 (paramsString params oAuthParams bodyParams)).data :=
  ⟨rfl, amp_not_mem_encode _, amp_not_mem_encode _⟩

/-- C2: canonicalization is order independent; permuting the
concatenated query, OAuth and body parameter lists in any way yields
the identical canonical parameter string. -/
theorem claim_C2_canonical_order_independent
    (q1 o1 b1 q2 o2 b2 : List Param)
    (h : (q1 ++ o1 ++ b1).Perm (q2 ++ o2 ++ b2)) :
    paramsString q1 o1 b1 = paramsString q2 o2 b2 := by
  unfold paramsString
  rw [mergeSort_sortLe_eq_of_perm (h.map encodeParamPair)]

theorem claim_C2_witness :
    ([(("b" : String), ("2" : String)), ("a", "1")] ++ [] ++ []).Perm
        ([(("a" : String), ("1" : String))] ++ [("b", "2")] ++ [])
    ∧ paramsString [("b", "2"), ("a", "1")] [] [] =
        paramsString [("a", "1")] [("b", "2")] [] :=
  ⟨by decide, claim_C2_canonical_order_independent _ _ _ _ _ _ (by decide)⟩

/-- C3: the HMAC signing key string built inside getSignature is the
percent-encoding of the consumer secret, a literal ampersand, and the
percent-encoding of the token secret; it contains exactly one
ampersand, and with consumer secret SECRET and empty token secret it
is the string SECRET followed by an ampersand. -/
theorem claim_C3_signing_key (consumerSecret tokenSecret : String) :
    keyString consumerSecret tokenSecret =
      encodeURIComponentRFC3986 consumerSecret ++ "&"
        ++ encodeURIComponentRFC3986 tokenSecret
    ∧ (keyString consumerSecret tokenSecret).data.count '&' = 1
    ∧ keyString "SECRET" "" = "SECRET&" := by
  refine ⟨rfl, ?_, by decide⟩
  show ((encodeURIComponentRFC3986 consumerSecret ++ "&"
    ++ encodeURIComponentRFC3986 tokenSecret)).data.count '&' = 1
  rw [String.data_append, String.data_append, List.count_append, List.count_append,
    List.count_eq_zero.mpr (amp_not_mem_encode consumerSecret),
    List.count_eq_zero.mpr (amp_not_mem_encode tokenSecret)]
  decide

theorem rfc3986_spec_char_singleton_iff (c : Char) :
    rfc3986EncodeCharSpec c = [c] ↔ isUnreservedRFC3986 c = true := by
  constructor
  · intro h
    by_contra h86
    rw [rfc3986EncodeCharSpec, if_neg h86] at h
    split_ifs at h with hs
    · obtain ⟨d, ds, hd⟩ := List.exists_cons_of_ne_nil (natToHexLower_ne_nil c.toNat)
      rw [hd] at h
      simp at h
    · obtain ⟨b, bs2, hb⟩ := List.exists_cons_of_ne_nil (utf8Bytes_ne_nil c.toNat)
      rw [hb] at h
      simp [percentByteUpper] at h
  · intro h
    rw [rfc3986EncodeCharSpec, if_pos h]

/-- C4: the encoder is the per-character map that keeps exactly the
RFC 3986 unreserved characters unescaped and escapes each of the five
special characters as a percent sign followed by its two lowercase hex
digits. -/
theorem claim_C4_encoder_character_map (s : String) :
    (encodeURIComponentRFC3986 s).data = s.data.flatMap rfc3986EncodeCharSpec
    ∧ (∀ c : Char, (rfc3986EncodeCharSpec c = [c] ↔ isUnreservedRFC3986 c = true))
    ∧ rfc3986EncodeCharSpec '!' = ['%', '2', '1']
    ∧ rfc3986EncodeCharSpec apos = ['%', '2', '7']
    ∧ rfc3986EncodeCharSpec '(' = ['%', '2', '8']
    ∧ rfc3986EncodeCharSpec ')' = ['%', '2', '9']
    ∧ rfc3986EncodeCharSpec '*' = ['%', '2', 'a'] := by
  refine ⟨encodeRFC3986_data s, rfc3986_spec_char_singleton_iff, ?_, ?_, ?_, ?_, ?_⟩ <;>
  · rw [rfc3986EncodeCharSpec, if_neg (by decide), if_pos (by decide),
      natToHexLower_two_digits _ (by decide) (by decide)]
    rfl

/-- C5: percent-decoding the output of the encoder recovers the input
exactly, for every string; the encoder is a total function of its
input in this model, with no failure case. -/
theorem claim_C5_decode_encode_roundtrip (s : String) :
    decodeURIComponentModel (encodeURIComponentRFC3986 s) = some s := by
  unfold decodeURIComponentModel
  rw [show (encodeURIComponentRFC3986 s).data = s.data.flatMap rfc3986EncodeCharSpec
    from encodeRFC3986_data s]
  rw [percentUnescapeChars_encode_list, Option.some_bind, utf8DecodeStrict_encode_list]
  rfl

/-- Unfolding of the Authorization header produced by makeRequest. -/
theorem makeRequest_authorization (hmac : List Nat → List Nat → List Nat)
    (encodeBase64 : List Nat → String) (client : OAuthClient)
    (requestURL method : String) (params oAuthParams : List Param)
    (contentType : String) (bodyValue : Option BodyValue) :
    (makeRequest hmac encodeBase64 client requestURL method params oAuthParams
        contentType bodyValue).authorization =
      "OAuth " ++ String.intercalate ", "
        ((credentialsList oAuthParams
            (getSignature hmac encodeBase64 client.consumerSecret
              (jsCoerceString client.tokenSecret) method requestURL params oAuthParams
              (if isPost method bodyValue
                  && (contentType == "application/x-www-form-urlencoded") then
                bodyParamsList bodyValue
              else []))).map credentialPart) := rfl

/-- C6: getRequestTokenParamsFrom throws the request-token failure
error on a non-success response and the unconfirmed-callback error on
a success body lacking oauth_callback_confirmed, leaving the stored
token pair unchanged in both cases; it returns successfully only on a
confirmed response, and then stores the token pair read from the
body. -/
theorem claim_C6_request_token_response (client : OAuthClient)
    (response : ResponseModel) :
    (response.ok = false →
      getRequestTokenParamsFrom client response =
        (Except.error ⟨"Failed to get request token"⟩, client))
    ∧ (response.ok = true →
        searchParamsGet (parseSearchParams response.body) "oauth_callback_confirmed"
          = none →
        getRequestTokenParamsFrom client response =
          (Except.error ⟨"Unconfirmed callback"⟩, client))
    ∧ (∀ r client1,
        getRequestTokenParamsFrom client response = (Except.ok r, client1) →
        response.ok = true
        ∧ jsTruthyOptStr (searchParamsGet (parseSearchParams response.body)
            "oauth_callback_confirmed") = true
        ∧ r = parseSearchParams response.body
        ∧ client1 = { client with
            token := searchParamsGet (parseSearchParams response.body) "oauth_token"
            tokenSecret :=
              searchParamsGet (parseSearchParams response.body) "oauth_token_secret" }) := by
  refine ⟨?_, ?_, ?_⟩
  · intro hok
    simp [getRequestTokenParamsFrom, hok]
  · intro hok hcc
    simp [getRequestTokenParamsFrom, hok, hcc, jsTruthyOptStr]
  · intro r client1 h
    unfold getRequestTokenParamsFrom at h
    cases hok : response.ok with
    | false => rw [hok] at h; simp at h
    | true =>
      rw [hok] at h
      simp only [Bool.not_true, Bool.false_eq_true, if_false] at h
      cases htr : jsTruthyOptStr (searchParamsGet (parseSearchParams response.body)
          "oauth_callback_confirmed") with
      | false => rw [htr] at h; simp at h
      | true =>
        rw [htr] at h
        simp only [Bool.not_true, Bool.false_eq_true, if_false, Prod.mk.injEq,
          Except.ok.injEq] at h
        exact ⟨rfl, rfl, h.1.symm, h.2.symm⟩

theorem claim_C6_witness :
    getRequestTokenParamsFrom ⟨"ck", "cs", some "", some ""⟩
        ⟨true, "oauth_token=T&oauth_token_secret=S"⟩ =
      (Except.error ⟨"Unconfirmed callback"⟩, ⟨"ck", "cs", some "", some ""⟩) :=
  (claim_C6_request_token_response _ _).2.1 rfl (by decide)

/-- C7 counterexample: with method POST and the empty string supplied
as the body value, isPost is false although a body value is supplied,
so the claimed equivalence fails at this input. -/
theorem claim_C7_counterexample :
    ¬ (isPost "POST" (some (BodyValue.str "")) = true ↔
        ("POST" = "POST" ∧ some (BodyValue.str "") ≠ none)) := by
  decide

/-- C7 as amended: isPost holds exactly when the method is POST and a
truthy body value is supplied (any parameter-list body, or a non-empty
string body; an empty-string body counts as no body), and the request
URL is the base URL with the query string from params appended exactly
when isPost is false and params is non-empty. -/
theorem claim_C7_amended_isPost_and_url (hmac : List Nat → List Nat → List Nat)
    (encodeBase64 : List Nat → String) (client : OAuthClient)
    (requestURL method : String) (params oAuthParams : List Param)
    (contentType : String) (bodyValue : Option BodyValue) :
    (isPost method bodyValue = true ↔
      method = "POST" ∧ jsTruthyBodyValue bodyValue = true)
    ∧ ((makeRequest hmac encodeBase64 client requestURL method params oAuthParams
          contentType bodyValue).url =
        if isPost method bodyValue = false ∧ params ≠ [] then
          requestURL ++ "?" ++ buildQuery params
        else requestURL) := by
  constructor
  · simp [isPost]
  · show buildURL requestURL params (isPost method bodyValue) = _
    rw [buildURL]
    cases hp : isPost method bodyValue
    · cases params with
      | nil => simp
      | cons p ps => simp
    · simp

/-- C8: for every call to makeRequestForRequestToken the Authorization
header of the built request is the OAuth marker followed by the
comma-separated encoded-and-quoted credential pairs; the credential
list carries the supplied callback URL (so the out-of-band callback
exactly when no callback option is given), and it carries exactly one
oauth_signature entry, in the last position, appended after signing. -/
theorem claim_C8_request_token_authorization
    (hmac : List Nat → List Nat → List Nat) (encodeBase64 : List Nat → String)
    (client : OAuthClient) (nonce : String) (timestamp : Nat)
    (requestTokenURL : String) (methodOpt : Option String)
    (paramsOpt : Option (List Param)) (callbackURLOpt : Option String) :
    ∃ sig : String,
      (makeRequestForRequestToken hmac encodeBase64 client nonce timestamp
          requestTokenURL methodOpt paramsOpt callbackURLOpt).1.authorization =
        "OAuth " ++ String.intercalate ", "
          ((credentialsList
              (requestTokenOAuthParams (setToken client none none) nonce timestamp
                (callbackURLOpt.getD "oob"))
              sig).map credentialPart)
      ∧ ("oauth_callback", callbackURLOpt.getD "oob") ∈
          credentialsList
            (requestTokenOAuthParams (setToken client none none) nonce timestamp
              (callbackURLOpt.getD "oob")) sig
      ∧ (callbackURLOpt = none →
          ("oauth_callback", "oob") ∈
            credentialsList
              (requestTokenOAuthParams (setToken client none none) nonce timestamp
                (callbackURLOpt.getD "oob")) sig)
      ∧ ((credentialsList
            (requestTokenOAuthParams (setToken client none none) nonce timestamp
              (callbackURLOpt.getD "oob"))
            sig).filter (fun p => p.1 == "oauth_signature")).length = 1
      ∧ (credentialsList
            (requestTokenOAuthParams (setToken client none none) nonce timestamp
              (callbackURLOpt.getD "oob"))
            sig).getLast? = some ("oauth_signature", sig) := by
  refine ⟨getSignature hmac encodeBase64 (setToken client none none).consumerSecret
    (jsCoerceString (setToken client none none).tokenSecret) (methodOpt.getD "POST")
    requestTokenURL (paramsOpt.getD [])
    (requestTokenOAuthParams (setToken client none none) nonce timestamp
      (callbackURLOpt.getD "oob")) [],
    ?_, ?_, ?_, ?_, ?_⟩
  · show (makeRequest hmac encodeBase64 (setToken client none none) requestTokenURL
      (methodOpt.getD "POST") (paramsOpt.getD [])
      (requestTokenOAuthParams (setToken client none none) nonce timestamp
        (callbackURLOpt.getD "oob"))
      "application/x-www-form-urlencoded" none).authorization = _
    rw [makeRequest_authorization]
    have hbp : (if isPost (methodOpt.getD "POST") none
        && (("application/x-www-form-urlencoded" : String)
            == "application/x-www-form-urlencoded") then
        bodyParamsList (none : Option BodyValue)
      else []) = [] := by
      split <;> rfl
    rw [hbp]
  · simp [credentialsList, requestTokenOAuthParams]
  · intro hnone
    rw [hnone]
    simp [credentialsList, requestTokenOAuthParams]
  · simp [credentialsList, requestTokenOAuthParams, List.filter_append]
  · exact List.getLast?_concat _

theorem claim_C8_witness :
    ("oauth_callback", "oob") ∈
      credentialsList
        (requestTokenOAuthParams
          (setToken ⟨"ck", "cs", some "", some ""⟩ none none) "n" 1
          ((none : Option String).getD "oob"))
        (Classical.choose
          (claim_C8_request_token_authorization (fun _ _ => []) (fun _ => "")
            ⟨"ck", "cs", some "", some ""⟩ "n" 1 "u" none none none)) :=
  (Classical.choose_spec
    (claim_C8_request_token_authorization (fun _ _ => []) (fun _ => "")
      ⟨"ck", "cs", some "", some ""⟩ "n" 1 "u" none none none)).2.2.1 rfl

/-- C9: on a success response getAccessTokenParamsFrom returns the
parsed parameters without an error and overwrites both stored token
fields with exactly the nullable values read from the body; an absent
key stores null, not the empty string. -/
theorem claim_C9_access_token_success (client : OAuthClient) (body : String) :
    getAccessTokenParamsFrom client ⟨true, body⟩ =
      (Except.ok (parseSearchParams body),
        { client with
          token := searchParamsGet (parseSearchParams body) "oauth_token"
          tokenSecret := searchParamsGet (parseSearchParams body) "oauth_token_secret" })
    ∧ (searchParamsGet (parseSearchParams body) "oauth_token" = none →
        (getAccessTokenParamsFrom client ⟨true, body⟩).2.token = none
        ∧ (getAccessTokenParamsFrom client ⟨true, body⟩).2.token ≠ some "") := by
  have h1 : getAccessTokenParamsFrom client ⟨true, body⟩ =
      (Except.ok (parseSearchParams body),
        { client with
          token := searchParamsGet (parseSearchParams body) "oauth_token"
          tokenSecret := searchParamsGet (parseSearchParams body) "oauth_token_secret" }) := by
    simp [getAccessTokenParamsFrom, setToken]
  refine ⟨h1, ?_⟩
  intro hnone
  rw [h1]
  simp [hnone]

theorem claim_C9_witness :
    (getAccessTokenParamsFrom ⟨"ck", "cs", some "", some ""⟩
        ⟨true, "oauth_token_secret=S"⟩).2.token = none :=
  ((claim_C9_access_token_success _ _).2 (by decide)).1

/-- C10: a request built by makeRequestForAccessToken has the access
token URL unchanged as its URL, no body, and no Content-Type header,
whatever the client state and method option, because no params or
bodyValue options exist and so isPost is always false. -/
theorem claim_C10_access_token_request_shape
    (hmac : List Nat → List Nat → List Nat) (encodeBase64 : List Nat → String)
    (client : OAuthClient) (nonce : String) (timestamp : Nat)
    (accessTokenURL verifier : String) (methodOpt : Option String) :
    (makeRequestForAccessToken hmac encodeBase64 client nonce timestamp accessTokenURL
        verifier methodOpt).url = accessTokenURL
    ∧ (makeRequestForAccessToken hmac encodeBase64 client nonce timestamp accessTokenURL
        verifier methodOpt).body = none
    ∧ (makeRequestForAccessToken hmac encodeBase64 client nonce timestamp accessTokenURL
        verifier methodOpt).contentType = none := by
  refine ⟨?_, ?_, ?_⟩ <;>
    simp [makeRequestForAccessToken, makeRequest, isPost, jsTruthyBodyValue, buildURL]

end OAuthDeno
